import Mathlib

/-!
Verification of the grid range query index from
`src/valhalla/meili/grid_range_query.h`.

The embedding models the C++ float arithmetic over `ℚ` and the C++ `int`
over `ℤ`.  Geometry collaborators that live outside the given sources
(`PointLL`, `AABB2`, `LineSegment2` from `valhalla/midgard`) are modelled
from the specification and marked as such in their doc comments.
Fallible operations (vector indexing that the C++ code performs without a
bounds check) are modelled with `Option`: a `none` result corresponds to
an out-of-bounds access, which is undefined behaviour in the source.
-/

/-- A planar point.  Modelled from the spec: "a 2-D point with `x()`, `y()`"
(`valhalla::midgard::PointLL`, not among the given sources). -/
structure Point where
  x : ℚ
  y : ℚ
deriving DecidableEq, Repr

/-- Modelled from the spec: squared Euclidean distance between two points
(`PointLL::DistanceSquared`, not among the given sources; the spec's cell
walk selects the neighbour "closest (squared Euclidean) to `end`"). -/
def Point.DistanceSquared (p q : Point) : ℚ :=
  (p.x - q.x) ^ 2 + (p.y - q.y) ^ 2

/-- A line segment given by its two endpoints (`LineSegment2`). -/
structure LineSegment where
  a : Point
  b : Point
deriving DecidableEq, Repr

/-- An axis-aligned bounding box (`AABB2`), four reals with the intended
invariant `minx ≤ maxx ∧ miny ≤ maxy`. -/
structure BoundingBox where
  minx : ℚ
  miny : ℚ
  maxx : ℚ
  maxy : ℚ
deriving DecidableEq, Repr

/-- Modelled from the spec: "Width `= maxx − minx`". -/
def BoundingBox.Width (bb : BoundingBox) : ℚ := bb.maxx - bb.minx

/-- Modelled from the spec: "height `= maxy − miny`". -/
def BoundingBox.Height (bb : BoundingBox) : ℚ := bb.maxy - bb.miny

/-- Modelled from the spec: `Contains` of the AABB collaborator; the spec
says "`a` lies in the bbox", read as closed containment. -/
def BoundingBox.Contains (bb : BoundingBox) (p : Point) : Prop :=
  bb.minx ≤ p.x ∧ p.x ≤ bb.maxx ∧ bb.miny ≤ p.y ∧ p.y ≤ bb.maxy

instance (bb : BoundingBox) (p : Point) : Decidable (bb.Contains p) := by
  unfold BoundingBox.Contains; infer_instance

/-- The point `a + t·(b − a)`; used to state where intersection points lie. -/
def lerpP (p q : Point) (t : ℚ) : Point :=
  ⟨p.x + t * (q.x - p.x), p.y + t * (q.y - p.y)⟩

/-- Modelled from the spec: "a segment type with a boolean
`Intersect(other, out_point)` returning a single point" — the standard
parametric segment/segment intersection: no point for parallel segments,
otherwise the crossing point of the two carrier lines when it lies within
both segments (parameters in `[0,1]`, endpoints included). -/
def LineSegment.Intersect (s1 s2 : LineSegment) : Option Point :=
  let d1x := s1.b.x - s1.a.x
  let d1y := s1.b.y - s1.a.y
  let d2x := s2.b.x - s2.a.x
  let d2y := s2.b.y - s2.a.y
  let ex := s2.a.x - s1.a.x
  let ey := s2.a.y - s1.a.y
  let denom := d1x * d2y - d1y * d2x
  if denom = 0 then none
  else
    let t := (ex * d2y - ey * d2x) / denom
    let u := (ex * d1y - ey * d1x) / denom
    if 0 ≤ t ∧ t ≤ 1 ∧ 0 ≤ u ∧ u ≤ 1 then
      some ⟨s1.a.x + t * d1x, s1.a.y + t * d1y⟩
    else none

/-- Truncation of a rational towards zero: the value of the C++ cast
`int(q)` applied to a float, as in `GridCoordinates`. -/
def ratTrunc (q : ℚ) : ℤ :=
  if q < 0 then -⌊-q⌋ else ⌊q⌋

/-- Represents one intersection between one side of a bounding box and a
segment (struct `BoundingBoxIntersection`): the intersection point and the
direction `(dx, dy)` to the cell adjacent to the intersected side. -/
structure BoundingBoxIntersection where
  point : Point
  dx : ℤ
  dy : ℤ
deriving DecidableEq, Repr

/-- The grid index (class `GridRangeQuery`).  `items` is the flat per-cell
table `items_`; `num_rows`/`num_cols` keep the source's (swapped) naming. -/
structure GridRangeQuery (κ : Type) where
  bbox : BoundingBox
  cell_width : ℚ
  cell_height : ℚ
  num_rows : ℤ
  num_cols : ℤ
  items : List (List κ)
deriving DecidableEq, Repr

/-- The constructor `GridRangeQuery(bbox, cell_width, cell_height)`:
validation of the four positivity conditions (`none` models the thrown
`std::invalid_argument`), effective cell sizes clamped by
`std::min`, and — exactly as in the source — `num_rows_ =
ceil(bbox_width / cell_width_)` and `num_cols_ = ceil(bbox_height /
cell_height_)`, with `items_.resize(num_cols_ * num_rows_)`. -/
def mkGridRangeQuery (κ : Type) (bbox : BoundingBox) (cell_width cell_height : ℚ) :
    Option (GridRangeQuery κ) :=
  if cell_width ≤ 0 then none
  else if cell_height ≤ 0 then none
  else if bbox.Width ≤ 0 then none
  else if bbox.Height ≤ 0 then none
  else
    let cw := min bbox.Width cell_width
    let ch := min bbox.Height cell_height
    let nr := ⌈bbox.Width / cw⌉
    let nc := ⌈bbox.Height / ch⌉
    some ⟨bbox, cw, ch, nr, nc, List.replicate (nc * nr).toNat []⟩

/-- `GridCoordinates(p)`: the C++ computes `int(dx / cell_width_)`,
a cast that truncates towards zero. -/
def GridRangeQuery.GridCoordinates {κ : Type} (g : GridRangeQuery κ) (p : Point) : ℤ × ℤ :=
  (ratTrunc ((p.x - g.bbox.minx) / g.cell_width),
   ratTrunc ((p.y - g.bbox.miny) / g.cell_height))

/-- `CellBoundingBox(i, j)`. -/
def GridRangeQuery.CellBoundingBox {κ : Type} (g : GridRangeQuery κ) (i j : ℤ) : BoundingBox :=
  ⟨g.bbox.minx + (i : ℚ) * g.cell_width,
   g.bbox.miny + (j : ℚ) * g.cell_height,
   g.bbox.minx + ((i : ℚ) + 1) * g.cell_width,
   g.bbox.miny + ((j : ℚ) + 1) * g.cell_height⟩

/-- `CellCenter(i, j)`. -/
def GridRangeQuery.CellCenter {κ : Type} (g : GridRangeQuery κ) (i j : ℤ) : Point :=
  ⟨g.bbox.minx + ((i : ℚ) + 1 / 2) * g.cell_width,
   g.bbox.miny + ((j : ℚ) + 1 / 2) * g.cell_height⟩

/-- The flat table index `i + j * num_cols_` used by `ItemsInCell`. -/
def GridRangeQuery.flatIndex {κ : Type} (g : GridRangeQuery κ) (i j : ℤ) : ℤ :=
  i + j * g.num_cols

/-- `ItemsInCell(i, j)` reads `items_[i + j * num_cols_]`; an access outside
the vector is undefined behaviour in C++ and is modelled as `none`. -/
def GridRangeQuery.ItemsInCell {κ : Type} (g : GridRangeQuery κ) (i j : ℤ) :
    Option (List κ) :=
  if 0 ≤ g.flatIndex i j then g.items.get? (g.flatIndex i j).toNat else none

/-- `ItemsInCell(i, j).push_back(k)`: append `k` at the flat position, or
`none` when the access is out of bounds. -/
def GridRangeQuery.pushKey {κ : Type} (g : GridRangeQuery κ) (i j : ℤ) (k : κ) :
    Option (GridRangeQuery κ) :=
  match g.ItemsInCell i j with
  | some l => some { g with items := g.items.set (g.flatIndex i j).toNat (l ++ [k]) }
  | none => none

/-- `Unlerp(a, b, p)`: divide along the axis with the larger absolute
delta. -/
def Unlerp (a b p : Point) : ℚ :=
  if |b.x - a.x| > |b.y - a.y| then (p.x - a.x) / (b.x - a.x)
  else (p.y - a.y) / (b.y - a.y)

/-- `BoundingBoxLineSegmentIntersections(box, segment)`: test the four
oriented edges bottom/right/top/left in the source's order and record the
direction to the neighbouring cell for each hit. -/
def BoundingBoxLineSegmentIntersections (box : BoundingBox) (segment : LineSegment) :
    List BoundingBoxIntersection :=
  let e1 : LineSegment := ⟨⟨box.minx, box.miny⟩, ⟨box.maxx, box.miny⟩⟩
  let e2 : LineSegment := ⟨⟨box.maxx, box.miny⟩, ⟨box.maxx, box.maxy⟩⟩
  let e3 : LineSegment := ⟨⟨box.maxx, box.maxy⟩, ⟨box.minx, box.maxy⟩⟩
  let e4 : LineSegment := ⟨⟨box.minx, box.maxy⟩, ⟨box.minx, box.miny⟩⟩
  (match segment.Intersect e1 with
   | some p => [⟨p, 0, -1⟩] | none => []) ++
  (match segment.Intersect e2 with
   | some p => [⟨p, 1, 0⟩] | none => []) ++
  (match segment.Intersect e3 with
   | some p => [⟨p, 0, 1⟩] | none => []) ++
  (match segment.Intersect e4 with
   | some p => [⟨p, -1, 0⟩] | none => [])

/-- `CellLineSegmentIntersections(i, j, segment)`. -/
def GridRangeQuery.CellLineSegmentIntersections {κ : Type} (g : GridRangeQuery κ)
    (i j : ℤ) (segment : LineSegment) : List BoundingBoxIntersection :=
  BoundingBoxLineSegmentIntersections (g.CellBoundingBox i j) segment

/-- The candidate points scanned by `InteriorLineSegment`: the boundary
intersections, then `a` if contained, then `b` if contained. -/
def GridRangeQuery.clipCandidates {κ : Type} (g : GridRangeQuery κ)
    (a b : Point) : List Point :=
  (BoundingBoxLineSegmentIntersections g.bbox ⟨a, b⟩).map (·.point) ++
  (if g.bbox.Contains a then [a] else []) ++
  (if g.bbox.Contains b then [b] else [])

/-- The scan of `InteriorLineSegment` over the candidate points, carrying
`(mint, minp, maxt, maxp)` exactly as the two independent `if`s of the
source do. -/
def clipFold (a b : Point) : List Point → ℚ × Point × ℚ × Point → ℚ × Point × ℚ × Point
  | [], acc => acc
  | p :: ps, (mint, minp, maxt, maxp) =>
    let t := Unlerp a b p
    let acc1 := if t < mint then (t, p) else (mint, minp)
    let acc2 := if t > maxt then (t, p) else (maxt, maxp)
    clipFold a b ps (acc1.1, acc1.2, acc2.1, acc2.2)

/-- `InteriorLineSegment(segment, interior)`: the clip of a segment to the
grid's bounding box; `none` models the `false` return. -/
def GridRangeQuery.InteriorLineSegment {κ : Type} (g : GridRangeQuery κ)
    (segment : LineSegment) : Option LineSegment :=
  let a := segment.a
  let b := segment.b
  if a = b then
    if g.bbox.Contains a then some ⟨a, b⟩ else none
  else
    let r := clipFold a b (g.clipCandidates a b) (1, a, 0, a)
    if r.1 < 1 ∧ r.2.2.1 > 0 then some ⟨r.2.1, r.2.2.2⟩ else none

/-- One iteration's neighbour choice in `AddLineSegment`'s walk: start from
`bestd = end.DistanceSquared(CellCenter(i, j))` and keep any intersection
whose neighbouring cell centre is strictly closer to `end`; `none` means
the `break` branch (ties do not move). -/
def GridRangeQuery.bestStepAux {κ : Type} (g : GridRangeQuery κ) (i j : ℤ) (e : Point) :
    List BoundingBoxIntersection → ℚ × Option BoundingBoxIntersection →
    ℚ × Option BoundingBoxIntersection
  | [], acc => acc
  | it :: rest, acc =>
    let d := e.DistanceSquared (g.CellCenter (i + it.dx) (j + it.dy))
    g.bestStepAux i j e rest (if d < acc.1 then (d, some it) else acc)

/-- The selected step of one walk iteration, if any. -/
def GridRangeQuery.bestStep {κ : Type} (g : GridRangeQuery κ) (i j : ℤ) (e : Point)
    (its : List BoundingBoxIntersection) : Option BoundingBoxIntersection :=
  (g.bestStepAux i j e its (e.DistanceSquared (g.CellCenter i j), none)).2

/-- The `while (Unlerp(start, end, current_point) < 1.0)` loop of
`AddLineSegment`, with explicit fuel.  Returns the list of cells at which
`push_back` is executed, in order, and `true` iff the loop reached its own
exit (`Unlerp ≥ 1` or `break`) rather than running out of fuel. -/
def GridRangeQuery.walkAux {κ : Type} (g : GridRangeQuery κ) (s e : Point) :
    Nat → ℤ → ℤ → Point → List (ℤ × ℤ) × Bool
  | 0, _, _, _ => ([], false)
  | n + 1, i, j, cur =>
    if Unlerp s e cur < 1 then
      match g.bestStep i j e (g.CellLineSegmentIntersections i j ⟨cur, e⟩) with
      | some it =>
        let r := g.walkAux s e n (i + it.dx) (j + it.dy) it.point
        ((i, j) :: r.1, r.2)
      | none => ([(i, j)], true)
    else ([], true)

/-- The fuel used to run the walk; the termination theorem shows it is
never exhausted, so the fuelled walk equals the C++ unbounded loop. -/
def GridRangeQuery.walkFuel {κ : Type} (g : GridRangeQuery κ) : Nat :=
  (g.num_cols + g.num_rows + 2).toNat

/-- `AddLineSegment(edgeid, segment)`: clip, then either the degenerate
single push or the cell walk; all pushes are folded over the table, and a
`none` result models an out-of-bounds `items_` access (C++ UB). -/
def GridRangeQuery.AddLineSegment {κ : Type} (g : GridRangeQuery κ) (edgeid : κ)
    (segment : LineSegment) : Option (GridRangeQuery κ) :=
  match g.InteriorLineSegment segment with
  | none => some g
  | some interior =>
    let se := g.GridCoordinates interior.a
    if interior.a = interior.b then
      g.pushKey se.1 se.2 edgeid
    else
      let r := g.walkAux interior.a interior.b g.walkFuel se.1 se.2 interior.a
      if r.2 then
        r.1.foldlM (fun g2 p => g2.pushKey p.1 p.2 edgeid) g
      else none

/-- The clamp `std::max(0, std::min(v, hi))` used by `Query`. -/
def clampIdx (v hi : ℤ) : ℤ := max 0 (min v hi)

/-- The inclusive clamped index rectangle enumerated by `Query`. -/
def GridRangeQuery.queryRect {κ : Type} (g : GridRangeQuery κ) (range : BoundingBox) :
    Finset (ℤ × ℤ) :=
  let mn := g.GridCoordinates ⟨range.minx, range.miny⟩
  let mx := g.GridCoordinates ⟨range.maxx, range.maxy⟩
  Finset.Icc (clampIdx mn.1 (g.num_cols - 1)) (clampIdx mx.1 (g.num_cols - 1)) ×ˢ
  Finset.Icc (clampIdx mn.2 (g.num_rows - 1)) (clampIdx mx.2 (g.num_rows - 1))

/-- `Query(range)`: the deduplicated union of the identifiers of the cells
in the clamped rectangle (the C++ `std::unordered_set` result). -/
def GridRangeQuery.Query {κ : Type} [DecidableEq κ] (g : GridRangeQuery κ)
    (range : BoundingBox) : Finset κ :=
  (g.queryRect range).biUnion fun p => ((g.ItemsInCell p.1 p.2).getD []).toFinset

/-! ### Termination measure for the cell walk -/

/-- The fractional column position of a point (the x-axis analogue of the
walk's target): `(p.x − minx) / cell_width`. -/
def GridRangeQuery.colMark {κ : Type} (g : GridRangeQuery κ) (p : Point) : ℚ :=
  (p.x - g.bbox.minx) / g.cell_width

/-- The fractional row position of a point: `(p.y − miny) / cell_height`. -/
def GridRangeQuery.rowMark {κ : Type} (g : GridRangeQuery κ) (p : Point) : ℚ :=
  (p.y - g.bbox.miny) / g.cell_height

/-- One-axis walk measure: how many strict-improvement steps the index `i`
can still take towards the axis target `α` (in either direction). -/
def axMeasure (α : ℚ) (i : ℤ) : ℕ :=
  (⌈α⌉ - 1 - i).toNat + (i - ⌊α⌋).toNat

/-- The termination measure of the cell walk towards endpoint `e`. -/
def GridRangeQuery.walkMeasure {κ : Type} (g : GridRangeQuery κ) (e : Point) (i j : ℤ) : ℕ :=
  axMeasure (g.colMark e) i + axMeasure (g.rowMark e) j

/-! ### Concrete instances

Small grids used to evaluate the operations on explicit inputs: `g31` is a
3-wide, 1-tall box with unit cells, `g13` its transpose, and `g10` the
square 10×10 grid of the specification's concrete scenarios. -/

/-- The grid built from bbox `(0,0)-(3,1)` with requested cell size 1×1. -/
def g31 : GridRangeQuery ℕ := ⟨⟨0, 0, 3, 1⟩, 1, 1, 3, 1, List.replicate 3 []⟩

/-- The grid built from bbox `(0,0)-(1,3)` with requested cell size 1×1. -/
def g13 : GridRangeQuery ℕ := ⟨⟨0, 0, 1, 3⟩, 1, 1, 1, 3, List.replicate 3 []⟩

/-- The grid built from bbox `(0,0)-(10,10)` with requested cell size 1×1. -/
def g10 : GridRangeQuery ℕ := ⟨⟨0, 0, 10, 10⟩, 1, 1, 10, 10, List.replicate 100 []⟩

/-- A vertical segment crossing the three stacked cells of `g13`. -/
def seg13 : LineSegment := ⟨⟨1 / 2, 1 / 2⟩, ⟨1 / 2, 5 / 2⟩⟩

/-- A degenerate segment sitting in cell `(0, 1)` of `g10`. -/
def segQ : LineSegment := ⟨⟨1 / 2, 3 / 2⟩, ⟨1 / 2, 3 / 2⟩⟩

/-- The state of `g10` after `AddLineSegment(5, segQ)`: key `5` recorded at
flat position `10`, the storage of cell `(0, 1)`. -/
def g10x : GridRangeQuery ℕ :=
  ⟨⟨0, 0, 10, 10⟩, 1, 1, 10, 10, (List.replicate 100 []).set 10 [5]⟩

/-! ### Constructor facts -/

/-- Successful construction characterises every field of the grid and the
positivity of the inputs. -/
theorem mk_fields {κ : Type} {bbox : BoundingBox} {cw ch : ℚ} {g : GridRangeQuery κ}
    (h : mkGridRangeQuery κ bbox cw ch = some g) :
    0 < cw ∧ 0 < ch ∧ 0 < bbox.Width ∧ 0 < bbox.Height ∧
    g.bbox = bbox ∧
    g.cell_width = min bbox.Width cw ∧
    g.cell_height = min bbox.Height ch ∧
    g.num_rows = ⌈bbox.Width / g.cell_width⌉ ∧
    g.num_cols = ⌈bbox.Height / g.cell_height⌉ ∧
    g.items = List.replicate (g.num_cols * g.num_rows).toNat [] := by
  unfold mkGridRangeQuery at h
  split_ifs at h with h1 h2 h3 h4
  cases h
  refine ⟨by linarith [not_le.mp h1], by linarith [not_le.mp h2],
    by linarith [not_le.mp h3], by linarith [not_le.mp h4], rfl, rfl, rfl, rfl, rfl, rfl⟩

/-- The effective cell width is positive and bounded by the box width. -/
theorem cell_width_pos {κ : Type} {bbox : BoundingBox} {cw ch : ℚ} {g : GridRangeQuery κ}
    (h : mkGridRangeQuery κ bbox cw ch = some g) :
    0 < g.cell_width ∧ g.cell_width ≤ g.bbox.Width := by
  obtain ⟨hcw, _, hW, _, hb, hcw', _⟩ := mk_fields h
  rw [hcw', hb]
  exact ⟨lt_min hW hcw, min_le_left _ _⟩

/-- The effective cell height is positive and bounded by the box height. -/
theorem cell_height_pos {κ : Type} {bbox : BoundingBox} {cw ch : ℚ} {g : GridRangeQuery κ}
    (h : mkGridRangeQuery κ bbox cw ch = some g) :
    0 < g.cell_height ∧ g.cell_height ≤ g.bbox.Height := by
  obtain ⟨_, hch, _, hH, hb, _, hch', _⟩ := mk_fields h
  rw [hch', hb]
  exact ⟨lt_min hH hch, min_le_left _ _⟩

/-- A constructed grid has at least one row and one column. -/
theorem counts_pos {κ : Type} {bbox : BoundingBox} {cw ch : ℚ} {g : GridRangeQuery κ}
    (h : mkGridRangeQuery κ bbox cw ch = some g) :
    1 ≤ g.num_rows ∧ 1 ≤ g.num_cols := by
  obtain ⟨_, _, hW, hH, hb, _, _, hnr, hnc, _⟩ := mk_fields h
  obtain ⟨hcwp, _⟩ := cell_width_pos h
  obtain ⟨hchp, _⟩ := cell_height_pos h
  constructor
  · rw [hnr]
    exact Int.ceil_pos.mpr (div_pos (hb ▸ hW) hcwp)
  · rw [hnc]
    exact Int.ceil_pos.mpr (div_pos (hb ▸ hH) hchp)

/-- The item table length of a constructed grid. -/
theorem items_length {κ : Type} {bbox : BoundingBox} {cw ch : ℚ} {g : GridRangeQuery κ}
    (h : mkGridRangeQuery κ bbox cw ch = some g) :
    g.items.length = (g.num_cols * g.num_rows).toNat := by
  obtain ⟨_, _, _, _, _, _, _, _, _, hitems⟩ := mk_fields h
  rw [hitems, List.length_replicate]

/-! ### Geometry fields are immutable -/

/-- A successful `push_back` changes only the item table's contents. -/
theorem pushKey_fields {κ : Type} {g g' : GridRangeQuery κ} {i j : ℤ} {k : κ}
    (h : g.pushKey i j k = some g') :
    g'.bbox = g.bbox ∧ g'.cell_width = g.cell_width ∧ g'.cell_height = g.cell_height ∧
    g'.num_rows = g.num_rows ∧ g'.num_cols = g.num_cols ∧
    g'.items.length = g.items.length := by
  unfold GridRangeQuery.pushKey at h
  rcases hv : g.ItemsInCell i j with _ | l
  · simp only [hv] at h
    cases h
  · simp only [hv] at h
    cases h
    exact ⟨rfl, rfl, rfl, rfl, rfl, List.length_set _ _ _⟩

/-- Folding `push_back` over a list of cells changes only the item table's
contents. -/
theorem foldPush_fields {κ : Type} (k : κ) :
    ∀ (l : List (ℤ × ℤ)) (g g' : GridRangeQuery κ),
    l.foldlM (fun g2 p => g2.pushKey p.1 p.2 k) g = some g' →
    g'.bbox = g.bbox ∧ g'.cell_width = g.cell_width ∧ g'.cell_height = g.cell_height ∧
    g'.num_rows = g.num_rows ∧ g'.num_cols = g.num_cols ∧
    g'.items.length = g.items.length
  | [], g, g', h => by
    cases h
    exact ⟨rfl, rfl, rfl, rfl, rfl, rfl⟩
  | p :: ps, g, g', h => by
    rw [List.foldlM_cons] at h
    rcases hv : g.pushKey p.1 p.2 k with _ | g1
    · rw [hv] at h; cases h
    · rw [hv] at h
      obtain ⟨h1, h2, h3, h4, h5, h6⟩ := foldPush_fields k ps g1 g' h
      obtain ⟨e1, e2, e3, e4, e5, e6⟩ := pushKey_fields hv
      exact ⟨h1.trans e1, h2.trans e2, h3.trans e3, h4.trans e4, h5.trans e5, h6.trans e6⟩

/-- A successful `AddLineSegment` preserves every field except the item
table's contents (in particular the table's length is unchanged). -/
theorem addLineSegment_fields {κ : Type} {g g' : GridRangeQuery κ} {k : κ}
    {seg : LineSegment} (h : g.AddLineSegment k seg = some g') :
    g'.bbox = g.bbox ∧ g'.cell_width = g.cell_width ∧ g'.cell_height = g.cell_height ∧
    g'.num_rows = g.num_rows ∧ g'.num_cols = g.num_cols ∧
    g'.items.length = g.items.length := by
  unfold GridRangeQuery.AddLineSegment at h
  rcases hv : g.InteriorLineSegment seg with _ | interior
  · simp only [hv] at h
    cases h
    exact ⟨rfl, rfl, rfl, rfl, rfl, rfl⟩
  · simp only [hv] at h
    by_cases hab : interior.a = interior.b
    · rw [if_pos hab] at h
      exact pushKey_fields h
    · rw [if_neg hab] at h
      set r := g.walkAux interior.a interior.b g.walkFuel
        (g.GridCoordinates interior.a).1 (g.GridCoordinates interior.a).2 interior.a with hr
      by_cases hfin : r.2
      · rw [if_pos hfin] at h
        exact foldPush_fields k r.1 g g' h
      · rw [if_neg hfin] at h; cases h

/-! ### Lerp / Unlerp facts -/

/-- Interpolating at parameter `0` gives the first endpoint. -/
theorem lerpP_zero (p q : Point) : lerpP p q 0 = p := by
  unfold lerpP
  cases p
  simp

/-- Interpolating at parameter `1` gives the second endpoint. -/
theorem lerpP_one (p q : Point) : lerpP p q 1 = q := by
  unfold lerpP
  cases q
  simp

/-- `Unlerp` inverts interpolation for distinct endpoints: the dominant
axis chosen by the source always has a non-zero denominator. -/
theorem unlerp_lerpP {p q : Point} (h : p ≠ q) (t : ℚ) :
    Unlerp p q (lerpP p q t) = t := by
  unfold Unlerp lerpP
  by_cases hd : |q.x - p.x| > |q.y - p.y|
  · rw [if_pos hd]
    have hdx : q.x - p.x ≠ 0 := by
      intro h0
      rw [h0, abs_zero] at hd
      exact absurd (abs_nonneg _) (not_le.mpr hd)
    have he : p.x + t * (q.x - p.x) - p.x = t * (q.x - p.x) := by ring
    simp only [he]
    exact mul_div_cancel_right₀ t hdx
  · rw [if_neg hd]
    have hdy : q.y - p.y ≠ 0 := by
      intro h0
      apply h
      have hx : |q.x - p.x| ≤ |q.y - p.y| := not_lt.mp hd
      rw [h0, abs_zero] at hx
      have : q.x - p.x = 0 := abs_eq_zero.mp (le_antisymm hx (abs_nonneg _))
      cases p; cases q
      simp_all
      constructor <;> linarith
    have he : p.y + t * (q.y - p.y) - p.y = t * (q.y - p.y) := by ring
    simp only [he]
    exact mul_div_cancel_right₀ t hdy

/-- `Unlerp a b a = 0` for `a ≠ b`. -/
theorem unlerp_left {p q : Point} (h : p ≠ q) : Unlerp p q p = 0 := by
  have := unlerp_lerpP h 0
  rwa [lerpP_zero] at this

/-- `Unlerp a b b = 1` for `a ≠ b`. -/
theorem unlerp_right {p q : Point} (h : p ≠ q) : Unlerp p q q = 1 := by
  have := unlerp_lerpP h 1
  rwa [lerpP_one] at this

/-! ### Intersection facts -/

/-- A reported intersection lies on the first segment, with a parameter in
`[0, 1]`. -/
theorem Intersect_on_first {s1 s2 : LineSegment} {p : Point}
    (h : s1.Intersect s2 = some p) :
    ∃ t : ℚ, 0 ≤ t ∧ t ≤ 1 ∧ p = lerpP s1.a s1.b t := by
  unfold LineSegment.Intersect at h
  dsimp only at h
  split_ifs at h with h0 h1
  obtain ⟨ht0, ht1, _, _⟩ := h1
  cases h
  exact ⟨_, ht0, ht1, rfl⟩

/-- A reported intersection also lies on the second segment, with a
parameter in `[0, 1]` (Cramer's rule for the underlying linear system). -/
theorem Intersect_on_second {s1 s2 : LineSegment} {p : Point}
    (h : s1.Intersect s2 = some p) :
    ∃ u : ℚ, 0 ≤ u ∧ u ≤ 1 ∧ p = lerpP s2.a s2.b u := by
  unfold LineSegment.Intersect at h
  dsimp only at h
  split_ifs at h with h0 h1
  obtain ⟨_, _, hu0, hu1⟩ := h1
  cases h
  refine ⟨_, hu0, hu1, ?_⟩
  unfold lerpP
  simp only [Point.mk.injEq]
  constructor
  · field_simp
    ring
  · field_simp
    ring

/-- Membership in the four-edge intersection list: unfolded description. -/
theorem mem_bbIntersections {box : BoundingBox} {seg : LineSegment}
    {it : BoundingBoxIntersection}
    (h : it ∈ BoundingBoxLineSegmentIntersections box seg) :
    (seg.Intersect ⟨⟨box.minx, box.miny⟩, ⟨box.maxx, box.miny⟩⟩ = some it.point ∧
      it.dx = 0 ∧ it.dy = -1) ∨
    (seg.Intersect ⟨⟨box.maxx, box.miny⟩, ⟨box.maxx, box.maxy⟩⟩ = some it.point ∧
      it.dx = 1 ∧ it.dy = 0) ∨
    (seg.Intersect ⟨⟨box.maxx, box.maxy⟩, ⟨box.minx, box.maxy⟩⟩ = some it.point ∧
      it.dx = 0 ∧ it.dy = 1) ∨
    (seg.Intersect ⟨⟨box.minx, box.maxy⟩, ⟨box.minx, box.miny⟩⟩ = some it.point ∧
      it.dx = -1 ∧ it.dy = 0) := by
  unfold BoundingBoxLineSegmentIntersections at h
  dsimp only at h
  simp only [List.mem_append] at h
  rcases h with ((h | h) | h) | h
  · left
    rcases hI : seg.Intersect ⟨⟨box.minx, box.miny⟩, ⟨box.maxx, box.miny⟩⟩ with _ | p <;>
      rw [hI] at h <;> simp at h
    cases h
    exact ⟨rfl, rfl, rfl⟩
  · right; left
    rcases hI : seg.Intersect ⟨⟨box.maxx, box.miny⟩, ⟨box.maxx, box.maxy⟩⟩ with _ | p <;>
      rw [hI] at h <;> simp at h
    cases h
    exact ⟨rfl, rfl, rfl⟩
  · right; right; left
    rcases hI : seg.Intersect ⟨⟨box.maxx, box.maxy⟩, ⟨box.minx, box.maxy⟩⟩ with _ | p <;>
      rw [hI] at h <;> simp at h
    cases h
    exact ⟨rfl, rfl, rfl⟩
  · right; right; right
    rcases hI : seg.Intersect ⟨⟨box.minx, box.maxy⟩, ⟨box.minx, box.miny⟩⟩ with _ | p <;>
      rw [hI] at h <;> simp at h
    cases h
    exact ⟨rfl, rfl, rfl⟩

/-- Every direction recorded by the intersection kernel is one of the four
axis unit steps. -/
theorem bbIntersections_dirs {box : BoundingBox} {seg : LineSegment}
    {it : BoundingBoxIntersection}
    (h : it ∈ BoundingBoxLineSegmentIntersections box seg) :
    (it.dx = 0 ∧ it.dy = -1) ∨ (it.dx = 1 ∧ it.dy = 0) ∨
    (it.dx = 0 ∧ it.dy = 1) ∨ (it.dx = -1 ∧ it.dy = 0) := by
  rcases mem_bbIntersections h with ⟨_, h1, h2⟩ | ⟨_, h1, h2⟩ | ⟨_, h1, h2⟩ | ⟨_, h1, h2⟩
  · exact Or.inl ⟨h1, h2⟩
  · exact Or.inr (Or.inl ⟨h1, h2⟩)
  · exact Or.inr (Or.inr (Or.inl ⟨h1, h2⟩))
  · exact Or.inr (Or.inr (Or.inr ⟨h1, h2⟩))

/-- Every intersection point reported against an ordered box lies inside
the (closed) box. -/
theorem bbIntersections_contains {box : BoundingBox} {seg : LineSegment}
    {it : BoundingBoxIntersection}
    (hx : box.minx ≤ box.maxx) (hy : box.miny ≤ box.maxy)
    (h : it ∈ BoundingBoxLineSegmentIntersections box seg) :
    box.Contains it.point := by
  have hWx : 0 ≤ box.maxx - box.minx := by linarith
  have hWy : 0 ≤ box.maxy - box.miny := by linarith
  rcases mem_bbIntersections h with ⟨hI, _, _⟩ | ⟨hI, _, _⟩ | ⟨hI, _, _⟩ | ⟨hI, _, _⟩ <;>
    obtain ⟨u, hu0, hu1, hp⟩ := Intersect_on_second hI <;>
    rw [hp] <;>
    unfold lerpP BoundingBox.Contains <;>
    dsimp only <;>
    refine ⟨by nlinarith, by nlinarith, by nlinarith, by nlinarith⟩

/-! ### Clip candidates and the min/max scan -/

/-- Every candidate point of the clip lies in the (closed, ordered) grid
box and on the segment, at a parameter within `[0, 1]`. -/
theorem clipCandidates_mem {κ : Type} {g : GridRangeQuery κ} {a b p : Point}
    (hx : g.bbox.minx ≤ g.bbox.maxx) (hy : g.bbox.miny ≤ g.bbox.maxy)
    (h : p ∈ g.clipCandidates a b) :
    g.bbox.Contains p ∧ ∃ t : ℚ, 0 ≤ t ∧ t ≤ 1 ∧ p = lerpP a b t := by
  unfold GridRangeQuery.clipCandidates at h
  simp only [List.mem_append, List.mem_map] at h
  rcases h with (⟨it, hit, hpt⟩ | ha) | hb
  · subst hpt
    refine ⟨bbIntersections_contains hx hy hit, ?_⟩
    rcases mem_bbIntersections hit with ⟨hI, _, _⟩ | ⟨hI, _, _⟩ | ⟨hI, _, _⟩ | ⟨hI, _, _⟩ <;>
      exact Intersect_on_first hI
  · by_cases hc : g.bbox.Contains a
    · rw [if_pos hc] at ha
      simp only [List.mem_singleton] at ha
      refine ⟨by rw [ha]; exact hc, 0, le_refl _, zero_le_one, ?_⟩
      rw [ha, lerpP_zero]
    · rw [if_neg hc] at ha
      simp at ha
  · by_cases hc : g.bbox.Contains b
    · rw [if_pos hc] at hb
      simp only [List.mem_singleton] at hb
      refine ⟨by rw [hb]; exact hc, 1, zero_le_one, le_refl _, ?_⟩
      rw [hb, lerpP_one]
    · rw [if_neg hc] at hb
      simp at hb

/-- Endpoints inside the box appear among the candidates. -/
theorem clipCandidates_self {κ : Type} {g : GridRangeQuery κ} {a b : Point} :
    (g.bbox.Contains a → a ∈ g.clipCandidates a b) ∧
    (g.bbox.Contains b → b ∈ g.clipCandidates a b) := by
  unfold GridRangeQuery.clipCandidates
  constructor <;> intro hc <;> simp [hc]

/-- Specification of the running-minimum half of the clip scan. -/
theorem clipFold_min_spec (a b : Point) :
    ∀ (pts : List Point) (mt : ℚ) (mp : Point) (xt : ℚ) (xp : Point)
      (r : ℚ × Point × ℚ × Point), clipFold a b pts (mt, mp, xt, xp) = r →
      r.1 ≤ mt ∧ (∀ p ∈ pts, r.1 ≤ Unlerp a b p) ∧
      ((r.1 = mt ∧ r.2.1 = mp) ∨
       (r.2.1 ∈ pts ∧ Unlerp a b r.2.1 = r.1 ∧ r.1 < mt))
  | [], mt, mp, xt, xp, r, h => by
    cases h
    exact ⟨le_refl _, by simp, Or.inl ⟨rfl, rfl⟩⟩
  | p :: ps, mt, mp, xt, xp, r, h => by
    rw [clipFold] at h
    by_cases h1 : Unlerp a b p < mt
    · rw [if_pos h1] at h
      obtain ⟨ha, hall, hor⟩ := clipFold_min_spec a b ps _ _ _ _ r h
      refine ⟨le_of_lt (lt_of_le_of_lt ha h1), ?_, ?_⟩
      · intro q hq
        rcases List.mem_cons.mp hq with hq | hq
        · subst hq; exact ha
        · exact hall q hq
      · rcases hor with ⟨he, hp⟩ | ⟨hm, he, hlt⟩
        · exact Or.inr ⟨by rw [hp]; exact List.mem_cons_self p ps,
            by rw [hp, he], by rw [he]; exact h1⟩
        · exact Or.inr ⟨List.mem_cons_of_mem p hm, he, lt_trans hlt h1⟩
    · rw [if_neg h1] at h
      obtain ⟨ha, hall, hor⟩ := clipFold_min_spec a b ps _ _ _ _ r h
      refine ⟨ha, ?_, ?_⟩
      · intro q hq
        rcases List.mem_cons.mp hq with hq | hq
        · subst hq; exact le_trans ha (not_lt.mp h1)
        · exact hall q hq
      · rcases hor with ⟨he, hp⟩ | ⟨hm, he, hlt⟩
        · exact Or.inl ⟨he, hp⟩
        · exact Or.inr ⟨List.mem_cons_of_mem p hm, he, hlt⟩

/-- Specification of the running-maximum half of the clip scan. -/
theorem clipFold_max_spec (a b : Point) :
    ∀ (pts : List Point) (mt : ℚ) (mp : Point) (xt : ℚ) (xp : Point)
      (r : ℚ × Point × ℚ × Point), clipFold a b pts (mt, mp, xt, xp) = r →
      xt ≤ r.2.2.1 ∧ (∀ p ∈ pts, Unlerp a b p ≤ r.2.2.1) ∧
      ((r.2.2.1 = xt ∧ r.2.2.2 = xp) ∨
       (r.2.2.2 ∈ pts ∧ Unlerp a b r.2.2.2 = r.2.2.1 ∧ xt < r.2.2.1))
  | [], mt, mp, xt, xp, r, h => by
    cases h
    exact ⟨le_refl _, by simp, Or.inl ⟨rfl, rfl⟩⟩
  | p :: ps, mt, mp, xt, xp, r, h => by
    rw [clipFold] at h
    by_cases h1 : Unlerp a b p > xt
    · rw [if_pos h1] at h
      obtain ⟨ha, hall, hor⟩ := clipFold_max_spec a b ps _ _ _ _ r h
      refine ⟨le_of_lt (lt_of_lt_of_le h1 ha), ?_, ?_⟩
      · intro q hq
        rcases List.mem_cons.mp hq with hq | hq
        · subst hq; exact ha
        · exact hall q hq
      · rcases hor with ⟨he, hp⟩ | ⟨hm, he, hlt⟩
        · exact Or.inr ⟨by rw [hp]; exact List.mem_cons_self p ps,
            by rw [hp, he], by rw [he]; exact h1⟩
        · exact Or.inr ⟨List.mem_cons_of_mem p hm, he, lt_trans h1 hlt⟩
    · rw [if_neg h1] at h
      obtain ⟨ha, hall, hor⟩ := clipFold_max_spec a b ps _ _ _ _ r h
      refine ⟨ha, ?_, ?_⟩
      · intro q hq
        rcases List.mem_cons.mp hq with hq | hq
        · subst hq; exact le_trans (not_lt.mp h1) ha
        · exact hall q hq
      · rcases hor with ⟨he, hp⟩ | ⟨hm, he, hlt⟩
        · exact Or.inl ⟨he, hp⟩
        · exact Or.inr ⟨List.mem_cons_of_mem p hm, he, hlt⟩

/-! ### InteriorLineSegment characterisation -/

/-- The degenerate branch of `InteriorLineSegment`. -/
theorem interior_degen {κ : Type} {g : GridRangeQuery κ} {seg : LineSegment}
    (hab : seg.a = seg.b) :
    g.InteriorLineSegment seg =
      if g.bbox.Contains seg.a then some ⟨seg.a, seg.b⟩ else none := by
  unfold GridRangeQuery.InteriorLineSegment
  rw [if_pos hab]

/-- The non-degenerate branch of `InteriorLineSegment`, phrased through
the result of the scan. -/
theorem interior_nondegen {κ : Type} {g : GridRangeQuery κ} {seg : LineSegment}
    (hab : ¬seg.a = seg.b) (r : ℚ × Point × ℚ × Point)
    (hr : clipFold seg.a seg.b (g.clipCandidates seg.a seg.b) (1, seg.a, 0, seg.a) = r) :
    g.InteriorLineSegment seg =
      if r.1 < 1 ∧ r.2.2.1 > 0 then some ⟨r.2.1, r.2.2.2⟩ else none := by
  unfold GridRangeQuery.InteriorLineSegment
  rw [if_neg hab]
  dsimp only
  rw [hr]

/-- For a non-degenerate segment, a successful clip returns endpoints that
are candidates realising the strict extremes of the scanned parameters. -/
theorem interior_endpoints {κ : Type} {g : GridRangeQuery κ} {seg s' : LineSegment}
    (hab : seg.a ≠ seg.b) (h : g.InteriorLineSegment seg = some s') :
    s'.a ∈ g.clipCandidates seg.a seg.b ∧ s'.b ∈ g.clipCandidates seg.a seg.b ∧
    Unlerp seg.a seg.b s'.a < 1 ∧ 0 < Unlerp seg.a seg.b s'.b ∧
    (∀ p ∈ g.clipCandidates seg.a seg.b,
      Unlerp seg.a seg.b s'.a ≤ Unlerp seg.a seg.b p ∧
      Unlerp seg.a seg.b p ≤ Unlerp seg.a seg.b s'.b) := by
  rw [interior_nondegen hab _ rfl] at h
  set r := clipFold seg.a seg.b (g.clipCandidates seg.a seg.b) (1, seg.a, 0, seg.a) with hr
  by_cases hcond : r.1 < 1 ∧ r.2.2.1 > 0
  · rw [if_pos hcond] at h
    cases h
    obtain ⟨hm1, hmall, hmor⟩ := clipFold_min_spec seg.a seg.b _ 1 seg.a 0 seg.a r hr.symm
    obtain ⟨hx1, hxall, hxor⟩ := clipFold_max_spec seg.a seg.b _ 1 seg.a 0 seg.a r hr.symm
    rcases hmor with ⟨he, _⟩ | ⟨hmem, hteq, _⟩
    · exact absurd hcond.1 (by rw [he]; exact lt_irrefl 1)
    · rcases hxor with ⟨he, _⟩ | ⟨hxmem, hxeq, _⟩
      · exact absurd hcond.2 (by rw [he]; exact lt_irrefl 0)
      · refine ⟨hmem, hxmem, ?_, ?_, ?_⟩
        · rw [hteq]; exact hcond.1
        · rw [hxeq]; exact hcond.2
        · intro p hp
          rw [hteq, hxeq]
          exact ⟨hmall p hp, hxall p hp⟩
  · rw [if_neg hcond] at h
    cases h

/-- A successful clip has both endpoints inside the (closed, ordered)
grid box. -/
theorem interior_mem_box {κ : Type} {g : GridRangeQuery κ} {seg s' : LineSegment}
    (hx : g.bbox.minx ≤ g.bbox.maxx) (hy : g.bbox.miny ≤ g.bbox.maxy)
    (h : g.InteriorLineSegment seg = some s') :
    g.bbox.Contains s'.a ∧ g.bbox.Contains s'.b := by
  by_cases hab : seg.a = seg.b
  · rw [interior_degen hab] at h
    by_cases hc : g.bbox.Contains seg.a
    · rw [if_pos hc] at h
      cases h
      exact ⟨hc, hab ▸ hc⟩
    · rw [if_neg hc] at h
      cases h
  · obtain ⟨hma, hmb, _⟩ := interior_endpoints hab h
    exact ⟨(clipCandidates_mem hx hy hma).1, (clipCandidates_mem hx hy hmb).1⟩

/-- C8: clipping is idempotent — re-clipping an already clipped segment to
the same (ordered) grid box returns it unchanged, and the re-clip is again
non-empty. -/
theorem interiorLineSegment_idempotent {κ : Type} {g : GridRangeQuery κ}
    (hx : g.bbox.minx ≤ g.bbox.maxx) (hy : g.bbox.miny ≤ g.bbox.maxy)
    {seg s' : LineSegment} (h : g.InteriorLineSegment seg = some s') :
    g.InteriorLineSegment s' = some s' := by
  by_cases hab : seg.a = seg.b
  · rw [interior_degen hab] at h
    by_cases hc : g.bbox.Contains seg.a
    · rw [if_pos hc] at h
      cases h
      have hab' : (⟨seg.a, seg.b⟩ : LineSegment).a = (⟨seg.a, seg.b⟩ : LineSegment).b := hab
      rw [interior_degen hab']
      rw [if_pos hc]
    · rw [if_neg hc] at h
      cases h
  · obtain ⟨hca, hcb⟩ := interior_mem_box hx hy h
    by_cases hab2 : s'.a = s'.b
    · rw [interior_degen hab2, if_pos hca]
    · have hP : ∀ p ∈ g.clipCandidates s'.a s'.b,
          0 ≤ Unlerp s'.a s'.b p ∧ Unlerp s'.a s'.b p ≤ 1 ∧
          (Unlerp s'.a s'.b p = 0 → p = s'.a) ∧ (Unlerp s'.a s'.b p = 1 → p = s'.b) := by
        intro p hp
        obtain ⟨_, t, ht0, ht1, hpt⟩ := clipCandidates_mem hx hy hp
        rw [hpt, unlerp_lerpP hab2]
        refine ⟨ht0, ht1, ?_, ?_⟩
        · intro h0; rw [h0, lerpP_zero]
        · intro h1; rw [h1, lerpP_one]
      have hmema : s'.a ∈ g.clipCandidates s'.a s'.b := clipCandidates_self.1 hca
      have hmemb : s'.b ∈ g.clipCandidates s'.a s'.b := clipCandidates_self.2 hcb
      obtain ⟨hm1, hmall, hmor⟩ :=
        clipFold_min_spec s'.a s'.b (g.clipCandidates s'.a s'.b) 1 s'.a 0 s'.a _ rfl
      obtain ⟨hq1, hqall, hqor⟩ :=
        clipFold_max_spec s'.a s'.b (g.clipCandidates s'.a s'.b) 1 s'.a 0 s'.a _ rfl
      set r := clipFold s'.a s'.b (g.clipCandidates s'.a s'.b) (1, s'.a, 0, s'.a) with hrdef
      have h0a : Unlerp s'.a s'.b s'.a = 0 := unlerp_left hab2
      have h1b : Unlerp s'.a s'.b s'.b = 1 := unlerp_right hab2
      have hr1le : r.1 ≤ 0 := by
        have := hmall s'.a hmema
        rwa [h0a] at this
      have hr1 : r.1 = 0 ∧ r.2.1 = s'.a := by
        rcases hmor with ⟨he, _⟩ | ⟨hm, he, _⟩
        · exfalso; rw [he] at hr1le; linarith
        · have h0 : r.1 = 0 := le_antisymm hr1le (by rw [← he]; exact (hP _ hm).1)
          exact ⟨h0, (hP _ hm).2.2.1 (by rw [he, h0])⟩
      have hx1ge : 1 ≤ r.2.2.1 := by
        have := hqall s'.b hmemb
        rwa [h1b] at this
      have hx2 : r.2.2.1 = 1 ∧ r.2.2.2 = s'.b := by
        rcases hqor with ⟨he, _⟩ | ⟨hm, he, _⟩
        · exfalso; rw [he] at hx1ge; linarith
        · have h1 : r.2.2.1 = 1 := le_antisymm (by rw [← he]; exact (hP _ hm).2.1) hx1ge
          exact ⟨h1, (hP _ hm).2.2.2 (by rw [he, h1])⟩
      rw [interior_nondegen hab2 r hrdef.symm]
      rw [if_pos (by rw [hr1.1, hx2.1]; exact ⟨by norm_num, by norm_num⟩)]
      rw [hr1.2, hx2.2]

/-! ### The cell walk: step selection -/

/-- Invariant of the best-neighbour scan: the tracked distance only
decreases, and a tracked candidate is an element of the scanned list
realising the tracked distance, strictly below the starting value. -/
theorem bestStepAux_spec {κ : Type} (g : GridRangeQuery κ) (i j : ℤ) (e : Point) :
    ∀ (l : List BoundingBoxIntersection) (acc r : ℚ × Option BoundingBoxIntersection),
    g.bestStepAux i j e l acc = r →
    r.1 ≤ acc.1 ∧ ((r.2 = acc.2 ∧ r.1 = acc.1) ∨
      ∃ it ∈ l, r.2 = some it ∧
        r.1 = e.DistanceSquared (g.CellCenter (i + it.dx) (j + it.dy)) ∧ r.1 < acc.1)
  | [], acc, r, h => by
    cases h
    exact ⟨le_refl _, Or.inl ⟨rfl, rfl⟩⟩
  | it :: rest, acc, r, h => by
    rw [GridRangeQuery.bestStepAux] at h
    by_cases hd : e.DistanceSquared (g.CellCenter (i + it.dx) (j + it.dy)) < acc.1
    · rw [if_pos hd] at h
      obtain ⟨h1, h2⟩ := bestStepAux_spec g i j e rest _ r h
      refine ⟨le_trans h1 (le_of_lt hd), ?_⟩
      rcases h2 with ⟨ha, hb⟩ | ⟨it2, hm, ha, hb, hc⟩
      · exact Or.inr ⟨it, List.mem_cons_self it rest, ha, hb, by rw [hb]; exact hd⟩
      · exact Or.inr ⟨it2, List.mem_cons_of_mem it hm, ha, hb, lt_trans hc hd⟩
    · rw [if_neg hd] at h
      obtain ⟨h1, h2⟩ := bestStepAux_spec g i j e rest _ r h
      refine ⟨h1, ?_⟩
      rcases h2 with ⟨ha, hb⟩ | ⟨it2, hm, ha, hb, hc⟩
      · exact Or.inl ⟨ha, hb⟩
      · exact Or.inr ⟨it2, List.mem_cons_of_mem it hm, ha, hb, hc⟩

/-- When the walk takes a step, the step is one of the scanned
intersections and its neighbouring cell centre is strictly closer to the
endpoint than the current cell centre. -/
theorem bestStep_some {κ : Type} (g : GridRangeQuery κ) (i j : ℤ) (e : Point)
    {its : List BoundingBoxIntersection} {it : BoundingBoxIntersection}
    (h : g.bestStep i j e its = some it) :
    it ∈ its ∧ e.DistanceSquared (g.CellCenter (i + it.dx) (j + it.dy)) <
      e.DistanceSquared (g.CellCenter i j) := by
  unfold GridRangeQuery.bestStep at h
  obtain ⟨h1, h2⟩ := bestStepAux_spec g i j e its
    (e.DistanceSquared (g.CellCenter i j), none) _ rfl
  rcases h2 with ⟨ha, _⟩ | ⟨it2, hm, ha, hb, hc⟩
  · rw [ha] at h
    cases h
  · rw [ha] at h
    cases h
    rw [hb] at hc
    exact ⟨hm, hc⟩

/-- When no intersection improves on the current cell, the scan keeps its
initial state. -/
theorem bestStepAux_const {κ : Type} (g : GridRangeQuery κ) (i j : ℤ) (e : Point) :
    ∀ (l : List BoundingBoxIntersection),
    (∀ it ∈ l, ¬ e.DistanceSquared (g.CellCenter (i + it.dx) (j + it.dy)) <
        e.DistanceSquared (g.CellCenter i j)) →
    g.bestStepAux i j e l (e.DistanceSquared (g.CellCenter i j), none) =
      (e.DistanceSquared (g.CellCenter i j), none)
  | [], _ => rfl
  | it :: rest, hall => by
    rw [GridRangeQuery.bestStepAux]
    rw [if_neg (hall it (List.mem_cons_self it rest))]
    exact bestStepAux_const g i j e rest fun it2 hm => hall it2 (List.mem_cons_of_mem it hm)

/-- Tie-breaking: if no intersection is a strict improvement, the walk
does not move (`break`). -/
theorem bestStep_none {κ : Type} (g : GridRangeQuery κ) (i j : ℤ) (e : Point)
    (its : List BoundingBoxIntersection)
    (hall : ∀ it ∈ its, e.DistanceSquared (g.CellCenter i j) ≤
        e.DistanceSquared (g.CellCenter (i + it.dx) (j + it.dy))) :
    g.bestStep i j e its = none := by
  unfold GridRangeQuery.bestStep
  rw [bestStepAux_const g i j e its fun it hm => not_lt.mpr (hall it hm)]

/-! ### The cell walk: measure decrease -/

/-- One improving step towards the target on an axis cancels one unit of
the one-axis measure (upward case). -/
theorem axMeasure_up {α : ℚ} {i : ℤ} (h : ((i : ℚ) + 1) < α) :
    axMeasure α (i + 1) + 1 = axMeasure α i := by
  have h1 : i + 1 < ⌈α⌉ := Int.lt_ceil.mpr (by push_cast; exact h)
  have h2 : i + 1 ≤ ⌊α⌋ := Int.le_floor.mpr (by push_cast; exact le_of_lt h)
  unfold axMeasure
  omega

/-- One improving step towards the target on an axis cancels one unit of
the one-axis measure (downward case). -/
theorem axMeasure_down {α : ℚ} {i : ℤ} (h : α < (i : ℚ)) :
    axMeasure α (i - 1) + 1 = axMeasure α i := by
  have h1 : ⌊α⌋ < i := Int.floor_lt.mpr h
  have h2 : ⌈α⌉ ≤ i := Int.ceil_le.mpr (le_of_lt h)
  unfold axMeasure
  omega

/-- A strict decrease of the centre distance when moving right forces the
target column to lie strictly beyond `i + 1`. -/
theorem dist_right {κ : Type} {g : GridRangeQuery κ} {e : Point} {i j : ℤ}
    (hcw : 0 < g.cell_width)
    (h : e.DistanceSquared (g.CellCenter (i + 1) j) <
      e.DistanceSquared (g.CellCenter i j)) :
    ((i : ℚ) + 1) < g.colMark e := by
  unfold Point.DistanceSquared GridRangeQuery.CellCenter at h
  unfold GridRangeQuery.colMark
  rw [lt_div_iff hcw]
  push_cast at h
  nlinarith [h, hcw, mul_pos hcw hcw]

/-- A strict decrease of the centre distance when moving left forces the
target column to lie strictly below `i`. -/
theorem dist_left {κ : Type} {g : GridRangeQuery κ} {e : Point} {i j : ℤ}
    (hcw : 0 < g.cell_width)
    (h : e.DistanceSquared (g.CellCenter (i - 1) j) <
      e.DistanceSquared (g.CellCenter i j)) :
    g.colMark e < (i : ℚ) := by
  unfold Point.DistanceSquared GridRangeQuery.CellCenter at h
  unfold GridRangeQuery.colMark
  rw [div_lt_iff hcw]
  push_cast at h
  nlinarith [h, hcw, mul_pos hcw hcw]

/-- A strict decrease of the centre distance when moving up forces the
target row to lie strictly beyond `j + 1`. -/
theorem dist_up {κ : Type} {g : GridRangeQuery κ} {e : Point} {i j : ℤ}
    (hch : 0 < g.cell_height)
    (h : e.DistanceSquared (g.CellCenter i (j + 1)) <
      e.DistanceSquared (g.CellCenter i j)) :
    ((j : ℚ) + 1) < g.rowMark e := by
  unfold Point.DistanceSquared GridRangeQuery.CellCenter at h
  unfold GridRangeQuery.rowMark
  rw [lt_div_iff hch]
  push_cast at h
  nlinarith [h, hch, mul_pos hch hch]

/-- A strict decrease of the centre distance when moving down forces the
target row to lie strictly below `j`. -/
theorem dist_down {κ : Type} {g : GridRangeQuery κ} {e : Point} {i j : ℤ}
    (hch : 0 < g.cell_height)
    (h : e.DistanceSquared (g.CellCenter i (j - 1)) <
      e.DistanceSquared (g.CellCenter i j)) :
    g.rowMark e < (j : ℚ) := by
  unfold Point.DistanceSquared GridRangeQuery.CellCenter at h
  unfold GridRangeQuery.rowMark
  rw [div_lt_iff hch]
  push_cast at h
  nlinarith [h, hch, mul_pos hch hch]

/-- Any strictly improving axis step decreases the walk measure by
exactly one. -/
theorem walkMeasure_step {κ : Type} {g : GridRangeQuery κ} {e : Point} {i j : ℤ}
    {it : BoundingBoxIntersection}
    (hcw : 0 < g.cell_width) (hch : 0 < g.cell_height)
    (hdir : (it.dx = 0 ∧ it.dy = -1) ∨ (it.dx = 1 ∧ it.dy = 0) ∨
      (it.dx = 0 ∧ it.dy = 1) ∨ (it.dx = -1 ∧ it.dy = 0))
    (hlt : e.DistanceSquared (g.CellCenter (i + it.dx) (j + it.dy)) <
      e.DistanceSquared (g.CellCenter i j)) :
    g.walkMeasure e (i + it.dx) (j + it.dy) + 1 = g.walkMeasure e i j := by
  rcases hdir with ⟨hx1, hy1⟩ | ⟨hx1, hy1⟩ | ⟨hx1, hy1⟩ | ⟨hx1, hy1⟩ <;>
    rw [hx1, hy1] at hlt ⊢
  · have e1 : i + (0 : ℤ) = i := by ring
    have e2 : j + (-1 : ℤ) = j - 1 := by ring
    rw [e1, e2] at hlt ⊢
    have hd := dist_down hch hlt
    have hm := axMeasure_down hd
    unfold GridRangeQuery.walkMeasure
    omega
  · have e1 : i + (1 : ℤ) = i + 1 := rfl
    have e2 : j + (0 : ℤ) = j := by ring
    rw [e2] at hlt ⊢
    have hd := dist_right hcw hlt
    have hm := axMeasure_up hd
    unfold GridRangeQuery.walkMeasure
    omega
  · have e1 : i + (0 : ℤ) = i := by ring
    rw [e1] at hlt ⊢
    have hd := dist_up hch hlt
    have hm := axMeasure_up hd
    unfold GridRangeQuery.walkMeasure
    omega
  · have e1 : i + (-1 : ℤ) = i - 1 := by ring
    have e2 : j + (0 : ℤ) = j := by ring
    rw [e1, e2] at hlt ⊢
    have hd := dist_left hcw hlt
    have hm := axMeasure_down hd
    unfold GridRangeQuery.walkMeasure
    omega

/-- With more fuel than the walk measure, the fuelled walk always reaches
the loop's own exit. -/
theorem walk_terminates {κ : Type} {g : GridRangeQuery κ} (s e : Point)
    (hcw : 0 < g.cell_width) (hch : 0 < g.cell_height) :
    ∀ (n : ℕ) (i j : ℤ) (cur : Point), g.walkMeasure e i j < n →
    (g.walkAux s e n i j cur).2 = true
  | 0, i, j, cur, h => absurd h (Nat.not_lt_zero _)
  | n + 1, i, j, cur, h => by
    rw [GridRangeQuery.walkAux]
    by_cases hu : Unlerp s e cur < 1
    · rw [if_pos hu]
      rcases hb : g.bestStep i j e (g.CellLineSegmentIntersections i j ⟨cur, e⟩) with _ | it
      · rfl
      · obtain ⟨hmem, hlt⟩ := bestStep_some g i j e hb
        have hdir := bbIntersections_dirs hmem
        have hstep := walkMeasure_step hcw hch hdir hlt
        exact walk_terminates s e hcw hch n (i + it.dx) (j + it.dy) it.point (by omega)
    · rw [if_neg hu]

/-- The one-axis measure of a start index within `[0, R]`, towards a
target with `0 ≤ α` and `⌈α⌉ ≤ R`, is at most `R`. -/
theorem axMeasure_bound {α : ℚ} {i R : ℤ} (h0 : 0 ≤ i) (hiR : i ≤ R)
    (hα0 : 0 ≤ α) (hαR : ⌈α⌉ ≤ R) : (axMeasure α i : ℤ) ≤ R := by
  have h1 : ⌈α⌉ ≤ ⌊α⌋ + 1 := Int.ceil_le_floor_add_one α
  have h2 : 0 ≤ ⌊α⌋ := Int.floor_nonneg.mpr hα0
  unfold axMeasure
  omega

/-- For a point inside the grid box, the x grid coordinate lies within
`[0, num_rows]` (the source's `num_rows` counts the x-axis partitions). -/
theorem coordinate_bound {q W c : ℚ} (hc : 0 < c) (h0 : 0 ≤ q) (hW : q ≤ W) :
    0 ≤ ratTrunc (q / c) ∧ ratTrunc (q / c) ≤ ⌈W / c⌉ := by
  have hq : 0 ≤ q / c := div_nonneg h0 (le_of_lt hc)
  rw [ratTrunc, if_neg (not_lt.mpr hq)]
  constructor
  · exact Int.floor_nonneg.mpr hq
  · refine le_trans (Int.floor_le_ceil _) (Int.ceil_le_ceil ?_)
    exact (div_le_div_iff_of_pos_right hc).mpr hW

/-- C3: on a validly constructed grid, the cell walk of `AddLineSegment`
run on a non-degenerate clip reaches its own exit within
`num_cols + num_rows + 2` iterations of fuel; every step it takes strictly
decreases the squared distance from the chosen neighbouring cell's centre
to the segment end, and when no intersection strictly improves that
distance the walk stops (ties break in favour of not moving). -/
theorem addLineSegment_walk_terminates {κ : Type} {bbox : BoundingBox} {cw ch : ℚ}
    {g : GridRangeQuery κ} (hg : mkGridRangeQuery κ bbox cw ch = some g)
    {seg s' : LineSegment} (hclip : g.InteriorLineSegment seg = some s')
    (hab : s'.a ≠ s'.b) {i0 j0 : ℤ} (hij : g.GridCoordinates s'.a = (i0, j0)) :
    (g.walkAux s'.a s'.b g.walkFuel i0 j0 s'.a).2 = true ∧
    (∀ (i j : ℤ) (cur : Point) (it : BoundingBoxIntersection),
      g.bestStep i j s'.b (g.CellLineSegmentIntersections i j ⟨cur, s'.b⟩) = some it →
      s'.b.DistanceSquared (g.CellCenter (i + it.dx) (j + it.dy)) <
        s'.b.DistanceSquared (g.CellCenter i j)) ∧
    (∀ (i j : ℤ) (cur : Point),
      (∀ it ∈ g.CellLineSegmentIntersections i j ⟨cur, s'.b⟩,
        s'.b.DistanceSquared (g.CellCenter i j) ≤
          s'.b.DistanceSquared (g.CellCenter (i + it.dx) (j + it.dy))) →
      g.bestStep i j s'.b (g.CellLineSegmentIntersections i j ⟨cur, s'.b⟩) = none) := by
  obtain ⟨_, _, hW, hH, hb, _, _, hnr, hnc, _⟩ := mk_fields hg
  obtain ⟨hcwp, hcwW⟩ := cell_width_pos hg
  obtain ⟨hchp, hchH⟩ := cell_height_pos hg
  obtain ⟨hnr1, hnc1⟩ := counts_pos hg
  have hWpos : 0 < g.bbox.Width := hb ▸ hW
  have hHpos : 0 < g.bbox.Height := hb ▸ hH
  have hxo : g.bbox.minx ≤ g.bbox.maxx := by
    have := hWpos
    unfold BoundingBox.Width at this
    linarith
  have hyo : g.bbox.miny ≤ g.bbox.maxy := by
    have := hHpos
    unfold BoundingBox.Height at this
    linarith
  obtain ⟨hca, hcb⟩ := interior_mem_box hxo hyo hclip
  have hnr2 : g.num_rows = ⌈g.bbox.Width / g.cell_width⌉ := by rw [hnr, hb]
  have hnc2 : g.num_cols = ⌈g.bbox.Height / g.cell_height⌉ := by rw [hnc, hb]
  -- the start indices are within [0, num_rows] × [0, num_cols]
  have hi0 : i0 = ratTrunc ((s'.a.x - g.bbox.minx) / g.cell_width) := by
    have : (g.GridCoordinates s'.a).1 = i0 := by rw [hij]
    rw [← this]
    rfl
  have hj0 : j0 = ratTrunc ((s'.a.y - g.bbox.miny) / g.cell_height) := by
    have : (g.GridCoordinates s'.a).2 = j0 := by rw [hij]
    rw [← this]
    rfl
  obtain ⟨hcax1, hcax2, hcay1, hcay2⟩ := hca
  obtain ⟨hcbx1, hcbx2, hcby1, hcby2⟩ := hcb
  have hWdef : g.bbox.Width = g.bbox.maxx - g.bbox.minx := rfl
  have hHdef : g.bbox.Height = g.bbox.maxy - g.bbox.miny := rfl
  have hibound := coordinate_bound hcwp (by linarith : (0 : ℚ) ≤ s'.a.x - g.bbox.minx)
    (by rw [hWdef]; linarith : s'.a.x - g.bbox.minx ≤ g.bbox.Width)
  have hjbound := coordinate_bound hchp (by linarith : (0 : ℚ) ≤ s'.a.y - g.bbox.miny)
    (by rw [hHdef]; linarith : s'.a.y - g.bbox.miny ≤ g.bbox.Height)
  rw [← hi0] at hibound
  rw [← hj0] at hjbound
  -- the walk measure towards the end point is at most num_rows + num_cols
  have hcol0 : 0 ≤ g.colMark s'.b := by
    unfold GridRangeQuery.colMark
    exact div_nonneg (by linarith) (le_of_lt hcwp)
  have hcolR : ⌈g.colMark s'.b⌉ ≤ g.num_rows := by
    rw [hnr2]
    apply Int.ceil_le_ceil
    unfold GridRangeQuery.colMark
    apply (div_le_div_iff_of_pos_right hcwp).mpr
    rw [hWdef]
    linarith
  have hrow0 : 0 ≤ g.rowMark s'.b := by
    unfold GridRangeQuery.rowMark
    exact div_nonneg (by linarith) (le_of_lt hchp)
  have hrowC : ⌈g.rowMark s'.b⌉ ≤ g.num_cols := by
    rw [hnc2]
    apply Int.ceil_le_ceil
    unfold GridRangeQuery.rowMark
    apply (div_le_div_iff_of_pos_right hchp).mpr
    rw [hHdef]
    linarith
  have hmi : (axMeasure (g.colMark s'.b) i0 : ℤ) ≤ g.num_rows :=
    axMeasure_bound hibound.1 (le_trans hibound.2 (le_of_eq hnr2.symm)) hcol0 hcolR
  have hmj : (axMeasure (g.rowMark s'.b) j0 : ℤ) ≤ g.num_cols :=
    axMeasure_bound hjbound.1 (le_trans hjbound.2 (le_of_eq hnc2.symm)) hrow0 hrowC
  have hfuel : g.walkMeasure s'.b i0 j0 < g.walkFuel := by
    unfold GridRangeQuery.walkMeasure GridRangeQuery.walkFuel
    omega
  refine ⟨walk_terminates s'.a s'.b hcwp hchp g.walkFuel i0 j0 s'.a hfuel, ?_, ?_⟩
  · intro i j cur it hstep
    exact (bestStep_some g i j s'.b hstep).2
  · intro i j cur hall
    exact bestStep_none g i j s'.b _ hall

/-! ### Query -/

/-- The clamp used by `Query` lands in `[0, hi]` whenever `0 ≤ hi`. -/
theorem clampIdx_bounds (v hi : ℤ) (h : 0 ≤ hi) :
    0 ≤ clampIdx v hi ∧ clampIdx v hi ≤ hi := by
  unfold clampIdx
  exact ⟨le_max_left _ _, max_le h (min_le_right _ _)⟩

/-- A cell whose indices are in range has a present entry in the table. -/
theorem itemsInCell_some {κ : Type} {g : GridRangeQuery κ} {i j : ℤ}
    (hlen : g.items.length = (g.num_cols * g.num_rows).toNat)
    (hi : 0 ≤ i) (hic : i < g.num_cols) (hj : 0 ≤ j) (hjr : j < g.num_rows) :
    ∃ l, g.ItemsInCell i j = some l := by
  have hC : 0 < g.num_cols := lt_of_le_of_lt hi hic
  have hflat0 : 0 ≤ g.flatIndex i j := by
    unfold GridRangeQuery.flatIndex
    exact add_nonneg hi (mul_nonneg hj (le_of_lt hC))
  have hflatlt : g.flatIndex i j < g.num_cols * g.num_rows := by
    unfold GridRangeQuery.flatIndex
    have h1 : j * g.num_cols ≤ (g.num_rows - 1) * g.num_cols :=
      mul_le_mul_of_nonneg_right (by omega) (le_of_lt hC)
    nlinarith [h1, hic]
  have hlt2 : (g.flatIndex i j).toNat < g.items.length := by
    rw [hlen]
    omega
  unfold GridRangeQuery.ItemsInCell
  rw [if_pos hflat0]
  exact ⟨_, List.get?_eq_get hlt2⟩

/-- C5: membership in `Query` is exactly membership in some cell of the
clamped inclusive index rectangle, all of whose cells are valid; in
particular a rectangle lying wholly outside the grid box still yields a
well-defined (possibly empty) result. -/
theorem query_mem_iff {κ : Type} [DecidableEq κ] {g : GridRangeQuery κ}
    (hc1 : 1 ≤ g.num_cols) (hr1 : 1 ≤ g.num_rows)
    (hlen : g.items.length = (g.num_cols * g.num_rows).toNat) :
    (∀ (range : BoundingBox) (p : ℤ × ℤ), p ∈ g.queryRect range →
      0 ≤ p.1 ∧ p.1 < g.num_cols ∧ 0 ≤ p.2 ∧ p.2 < g.num_rows) ∧
    (∀ (range : BoundingBox) (k : κ), k ∈ g.Query range ↔
      ∃ p ∈ g.queryRect range, ∃ l, g.ItemsInCell p.1 p.2 = some l ∧ k ∈ l) := by
  have hrect : ∀ (range : BoundingBox) (p : ℤ × ℤ), p ∈ g.queryRect range →
      0 ≤ p.1 ∧ p.1 < g.num_cols ∧ 0 ≤ p.2 ∧ p.2 < g.num_rows := by
    intro range p hp
    unfold GridRangeQuery.queryRect at hp
    rw [Finset.mem_product] at hp
    obtain ⟨hp1, hp2⟩ := hp
    rw [Finset.mem_Icc] at hp1 hp2
    have hb1 := clampIdx_bounds (g.GridCoordinates ⟨range.minx, range.miny⟩).1
      (g.num_cols - 1) (by omega)
    have hb2 := clampIdx_bounds (g.GridCoordinates ⟨range.maxx, range.maxy⟩).1
      (g.num_cols - 1) (by omega)
    have hb3 := clampIdx_bounds (g.GridCoordinates ⟨range.minx, range.miny⟩).2
      (g.num_rows - 1) (by omega)
    have hb4 := clampIdx_bounds (g.GridCoordinates ⟨range.maxx, range.maxy⟩).2
      (g.num_rows - 1) (by omega)
    omega
  refine ⟨hrect, ?_⟩
  intro range k
  unfold GridRangeQuery.Query
  rw [Finset.mem_biUnion]
  constructor
  · rintro ⟨p, hp, hk⟩
    obtain ⟨h1, h2, h3, h4⟩ := hrect range p hp
    obtain ⟨l, hl⟩ := itemsInCell_some hlen h1 h2 h3 h4
    refine ⟨p, hp, l, hl, ?_⟩
    rw [hl] at hk
    exact List.mem_toFinset.mp hk
  · rintro ⟨p, hp, l, hl, hkl⟩
    refine ⟨p, hp, ?_⟩
    rw [hl]
    exact List.mem_toFinset.mpr hkl

/-! ### ItemsInCell flat aliasing -/

/-- Amended C9: for any pair `(i, j)` whose flat index is within the
table, `ItemsInCell` silently returns the storage of the valid cell
`(flat mod num_cols, flat div num_cols)` — even when `(i, j)` itself is
out of range. -/
theorem itemsInCell_flat_aliasing {κ : Type} {g : GridRangeQuery κ}
    (hc1 : 1 ≤ g.num_cols) (hr1 : 1 ≤ g.num_rows)
    (hlen : g.items.length = (g.num_cols * g.num_rows).toNat) (i j : ℤ)
    (h0 : 0 ≤ g.flatIndex i j) (hlt : g.flatIndex i j < g.num_cols * g.num_rows) :
    (g.ItemsInCell i j).isSome = true ∧
    g.ItemsInCell i j =
      g.ItemsInCell (g.flatIndex i j % g.num_cols) (g.flatIndex i j / g.num_cols) ∧
    0 ≤ g.flatIndex i j % g.num_cols ∧ g.flatIndex i j % g.num_cols < g.num_cols ∧
    0 ≤ g.flatIndex i j / g.num_cols ∧ g.flatIndex i j / g.num_cols < g.num_rows := by
  have hC : 0 < g.num_cols := by omega
  have hmod0 : 0 ≤ g.flatIndex i j % g.num_cols :=
    Int.emod_nonneg _ (ne_of_gt hC)
  have hmodC : g.flatIndex i j % g.num_cols < g.num_cols :=
    Int.emod_lt_of_pos _ hC
  have hdiv0 : 0 ≤ g.flatIndex i j / g.num_cols :=
    Int.ediv_nonneg h0 (le_of_lt hC)
  have hdivR : g.flatIndex i j / g.num_cols < g.num_rows := by
    rw [Int.ediv_lt_iff_lt_mul hC]
    rw [mul_comm] at hlt
    exact hlt
  have hkey : g.flatIndex (g.flatIndex i j % g.num_cols) (g.flatIndex i j / g.num_cols) =
      g.flatIndex i j := by
    unfold GridRangeQuery.flatIndex
    have := Int.emod_add_ediv (i + j * g.num_cols) g.num_cols
    linarith [this]
  have hlt2 : (g.flatIndex i j).toNat < g.items.length := by
    rw [hlen]
    omega
  have hsome : g.ItemsInCell i j = some (g.items.get ⟨(g.flatIndex i j).toNat, hlt2⟩) := by
    unfold GridRangeQuery.ItemsInCell
    rw [if_pos h0]
    exact List.get?_eq_get hlt2
  refine ⟨by rw [hsome]; rfl, ?_, hmod0, hmodC, hdiv0, hdivR⟩
  unfold GridRangeQuery.ItemsInCell
  rw [hkey]

/-! ### Folded minima and maxima over the candidate parameters -/

/-- `foldr min` is a lower bound of the initial value and every element. -/
theorem foldr_min_le (l : List ℚ) (v : ℚ) :
    l.foldr min v ≤ v ∧ ∀ x ∈ l, l.foldr min v ≤ x := by
  induction l with
  | nil => exact ⟨le_refl _, by simp⟩
  | cons q qs ih =>
    refine ⟨le_trans (min_le_right _ _) ih.1, ?_⟩
    intro x hx
    rcases List.mem_cons.mp hx with hx | hx
    · rw [hx, List.foldr_cons]
      exact min_le_left _ _
    · exact le_trans (min_le_right _ _) (ih.2 x hx)

/-- `foldr min` is attained at the initial value or at an element. -/
theorem foldr_min_attained (l : List ℚ) (v : ℚ) :
    l.foldr min v = v ∨ l.foldr min v ∈ l := by
  induction l with
  | nil => exact Or.inl rfl
  | cons q qs ih =>
    rw [List.foldr_cons]
    rcases min_choice q (qs.foldr min v) with h | h
    · exact Or.inr (by rw [h]; exact List.mem_cons_self _ _)
    · rw [h]
      rcases ih with h2 | h2
      · exact Or.inl h2
      · exact Or.inr (List.mem_cons_of_mem _ h2)

/-- `foldr max` is an upper bound of the initial value and every element. -/
theorem foldr_max_le (l : List ℚ) (v : ℚ) :
    v ≤ l.foldr max v ∧ ∀ x ∈ l, x ≤ l.foldr max v := by
  induction l with
  | nil => exact ⟨le_refl _, by simp⟩
  | cons q qs ih =>
    refine ⟨le_trans ih.1 (le_max_right _ _), ?_⟩
    intro x hx
    rcases List.mem_cons.mp hx with hx | hx
    · rw [hx, List.foldr_cons]
      exact le_max_left _ _
    · exact le_trans (ih.2 x hx) (le_max_right _ _)

/-- `foldr max` is attained at the initial value or at an element. -/
theorem foldr_max_attained (l : List ℚ) (v : ℚ) :
    l.foldr max v = v ∨ l.foldr max v ∈ l := by
  induction l with
  | nil => exact Or.inl rfl
  | cons q qs ih =>
    rw [List.foldr_cons]
    rcases max_choice q (qs.foldr max v) with h | h
    · exact Or.inr (by rw [h]; exact List.mem_cons_self _ _)
    · rw [h]
      rcases ih with h2 | h2
      · exact Or.inl h2
      · exact Or.inr (List.mem_cons_of_mem _ h2)

/-- Two lower bounds of a list, both attained (or equal to the shared
initial value), coincide. -/
theorem min_unique {l : List ℚ} {v u w : ℚ}
    (hu1 : u ≤ v) (hu2 : ∀ x ∈ l, u ≤ x) (hu3 : u = v ∨ u ∈ l)
    (hw1 : w ≤ v) (hw2 : ∀ x ∈ l, w ≤ x) (hw3 : w = v ∨ w ∈ l) : u = w := by
  apply le_antisymm
  · rcases hw3 with h | h
    · rw [h]
      exact hu1
    · exact hu2 w h
  · rcases hu3 with h | h
    · rw [h]
      exact hw1
    · exact hw2 u h

/-- Two upper bounds of a list, both attained (or equal to the shared
initial value), coincide. -/
theorem max_unique {l : List ℚ} {v u w : ℚ}
    (hu1 : v ≤ u) (hu2 : ∀ x ∈ l, x ≤ u) (hu3 : u = v ∨ u ∈ l)
    (hw1 : v ≤ w) (hw2 : ∀ x ∈ l, x ≤ w) (hw3 : w = v ∨ w ∈ l) : u = w := by
  apply le_antisymm
  · rcases hu3 with h | h
    · rw [h]
      exact hw1
    · exact hw2 u h
  · rcases hw3 with h | h
    · rw [h]
      exact hu1
    · exact hu2 w h

/-- The scanned minimum of `InteriorLineSegment` equals the folded minimum
(initialised at `1`) of the candidate parameters, and likewise for the
maximum (initialised at `0`), with the scan's extreme points realising
them. -/
theorem clipFold_as_foldr {κ : Type} (g : GridRangeQuery κ) {a b : Point}
    (r : ℚ × Point × ℚ × Point)
    (hr : clipFold a b (g.clipCandidates a b) (1, a, 0, a) = r) :
    r.1 = ((g.clipCandidates a b).map (Unlerp a b)).foldr min 1 ∧
    r.2.2.1 = ((g.clipCandidates a b).map (Unlerp a b)).foldr max 0 := by
  obtain ⟨hm1, hmall, hmor⟩ := clipFold_min_spec a b (g.clipCandidates a b) 1 a 0 a r hr
  obtain ⟨hq1, hqall, hqor⟩ := clipFold_max_spec a b (g.clipCandidates a b) 1 a 0 a r hr
  set ts := (g.clipCandidates a b).map (Unlerp a b) with hts
  have hf1 := foldr_min_le ts 1
  have hf2 := foldr_min_attained ts 1
  have hg1 := foldr_max_le ts 0
  have hg2 := foldr_max_attained ts 0
  constructor
  · apply min_unique (l := ts) (v := 1) hm1 ?_ ?_ hf1.1 hf1.2 hf2
    · intro x hx
      rw [hts] at hx
      obtain ⟨p, hp, hpx⟩ := List.mem_map.mp hx
      rw [← hpx]
      exact hmall p hp
    · rcases hmor with ⟨he, _⟩ | ⟨hmem, he, _⟩
      · exact Or.inl he
      · exact Or.inr (by rw [← he]; exact List.mem_map_of_mem _ hmem)
  · apply max_unique (l := ts) (v := 0) hq1 ?_ ?_ hg1.1 hg1.2 hg2
    · intro x hx
      rw [hts] at hx
      obtain ⟨p, hp, hpx⟩ := List.mem_map.mp hx
      rw [← hpx]
      exact hqall p hp
    · rcases hqor with ⟨he, _⟩ | ⟨hmem, he, _⟩
      · exact Or.inl he
      · exact Or.inr (by rw [← he]; exact List.mem_map_of_mem _ hmem)

/-! ### Claim-level theorems (general statements) -/

/-- C6: behaviour of `InteriorLineSegment`.  A degenerate segment is kept
exactly when its point lies in the box.  Otherwise the candidate points
are the boundary intersections plus the contained endpoints; the clip is
non-empty iff the least candidate parameter (clamped at `1`) is below `1`
and the greatest (clamped at `0`) is above `0`, and then it runs from the
candidate of minimal parameter to the candidate of maximal parameter. -/
theorem interiorLineSegment_spec {κ : Type} (g : GridRangeQuery κ) (seg : LineSegment) :
    (seg.a = seg.b → g.InteriorLineSegment seg =
      (if g.bbox.Contains seg.a then some seg else none)) ∧
    (seg.a ≠ seg.b →
      ((g.InteriorLineSegment seg).isSome = true ↔
        ((g.clipCandidates seg.a seg.b).map (Unlerp seg.a seg.b)).foldr min 1 < 1 ∧
        0 < ((g.clipCandidates seg.a seg.b).map (Unlerp seg.a seg.b)).foldr max 0) ∧
      (∀ s', g.InteriorLineSegment seg = some s' →
        s'.a ∈ g.clipCandidates seg.a seg.b ∧ s'.b ∈ g.clipCandidates seg.a seg.b ∧
        Unlerp seg.a seg.b s'.a =
          ((g.clipCandidates seg.a seg.b).map (Unlerp seg.a seg.b)).foldr min 1 ∧
        Unlerp seg.a seg.b s'.b =
          ((g.clipCandidates seg.a seg.b).map (Unlerp seg.a seg.b)).foldr max 0)) := by
  constructor
  · intro hab
    rw [interior_degen hab]
  · intro hab
    set r := clipFold seg.a seg.b (g.clipCandidates seg.a seg.b) (1, seg.a, 0, seg.a)
      with hr
    have hchar := interior_nondegen hab r hr.symm
    obtain ⟨hminr, hmaxr⟩ := clipFold_as_foldr g r hr.symm
    constructor
    · rw [hchar, ← hminr, ← hmaxr]
      by_cases hcond : r.1 < 1 ∧ r.2.2.1 > 0
      · rw [if_pos hcond]
        simpa using hcond
      · rw [if_neg hcond]
        simpa using hcond
    · intro s' hs'
      obtain ⟨h1, h2, h3, h4, h5⟩ := interior_endpoints hab hs'
      have hmemts : Unlerp seg.a seg.b s'.a ∈
          (g.clipCandidates seg.a seg.b).map (Unlerp seg.a seg.b) :=
        List.mem_map_of_mem _ h1
      have hmemts2 : Unlerp seg.a seg.b s'.b ∈
          (g.clipCandidates seg.a seg.b).map (Unlerp seg.a seg.b) :=
        List.mem_map_of_mem _ h2
      refine ⟨h1, h2, ?_, ?_⟩
      · refine min_unique (l := (g.clipCandidates seg.a seg.b).map (Unlerp seg.a seg.b))
          (v := 1) (le_of_lt h3) ?_ (Or.inr hmemts)
          (foldr_min_le _ 1).1 (foldr_min_le _ 1).2 (foldr_min_attained _ 1)
        intro x hx
        obtain ⟨p, hp, hpx⟩ := List.mem_map.mp hx
        rw [← hpx]
        exact (h5 p hp).1
      · refine max_unique (l := (g.clipCandidates seg.a seg.b).map (Unlerp seg.a seg.b))
          (v := 0) (le_of_lt h4) ?_ (Or.inr hmemts2)
          (foldr_max_le _ 0).1 (foldr_max_le _ 0).2 (foldr_max_attained _ 0)
        intro x hx
        obtain ⟨p, hp, hpx⟩ := List.mem_map.mp hx
        rw [← hpx]
        exact (h5 p hp).2

/-- Amended C1: the grid covers the box with the source's own pairing of
the counts — `num_rows` (computed from the width) times `cell_width`
covers the width and `num_cols` (computed from the height) times
`cell_height` covers the height — and the geometry fields are preserved
by every `AddLineSegment`. -/
theorem grid_covers_box_swapped {κ : Type} {bbox : BoundingBox} {cw ch : ℚ}
    {g : GridRangeQuery κ} (hg : mkGridRangeQuery κ bbox cw ch = some g) :
    (g.bbox.Width ≤ (g.num_rows : ℚ) * g.cell_width ∧
     g.bbox.Height ≤ (g.num_cols : ℚ) * g.cell_height) ∧
    ∀ (k : κ) (seg : LineSegment) (g2 : GridRangeQuery κ),
      g.AddLineSegment k seg = some g2 →
      g2.bbox = g.bbox ∧ g2.cell_width = g.cell_width ∧ g2.cell_height = g.cell_height ∧
      g2.num_rows = g.num_rows ∧ g2.num_cols = g.num_cols := by
  obtain ⟨_, _, hW, hH, hb, _, _, hnr, hnc, _⟩ := mk_fields hg
  obtain ⟨hcwp, _⟩ := cell_width_pos hg
  obtain ⟨hchp, _⟩ := cell_height_pos hg
  constructor
  · constructor
    · rw [hb, hnr]
      calc bbox.Width = bbox.Width / g.cell_width * g.cell_width := by
            rw [div_mul_cancel₀ _ (ne_of_gt hcwp)]
        _ ≤ (⌈bbox.Width / g.cell_width⌉ : ℚ) * g.cell_width :=
            mul_le_mul_of_nonneg_right (Int.le_ceil _) (le_of_lt hcwp)
    · rw [hb, hnc]
      calc bbox.Height = bbox.Height / g.cell_height * g.cell_height := by
            rw [div_mul_cancel₀ _ (ne_of_gt hchp)]
        _ ≤ (⌈bbox.Height / g.cell_height⌉ : ℚ) * g.cell_height :=
            mul_le_mul_of_nonneg_right (Int.le_ceil _) (le_of_lt hchp)
  · intro k seg g2 hadd
    obtain ⟨h1, h2, h3, h4, h5, _⟩ := addLineSegment_fields hadd
    exact ⟨h1, h2, h3, h4, h5⟩

/-- Amended C2: the constructor stores the clamped cell sizes, then
computes `num_rows = ⌈width / cell_width⌉` and `num_cols =
⌈height / cell_height⌉` (the transpose of the claimed pairing), and
allocates `num_cols · num_rows` empty cells. -/
theorem constructor_spec_swapped {κ : Type} {bbox : BoundingBox} {cw ch : ℚ}
    {g : GridRangeQuery κ} (hg : mkGridRangeQuery κ bbox cw ch = some g) :
    g.cell_width = min bbox.Width cw ∧ g.cell_height = min bbox.Height ch ∧
    g.num_rows = ⌈bbox.Width / g.cell_width⌉ ∧
    g.num_cols = ⌈bbox.Height / g.cell_height⌉ ∧
    g.items.length = (g.num_cols * g.num_rows).toNat ∧
    ∀ l ∈ g.items, l = [] := by
  obtain ⟨_, _, _, _, _, h6, h7, h8, h9, h10⟩ := mk_fields hg
  refine ⟨h6, h7, h8, h9, by rw [h10, List.length_replicate], ?_⟩
  intro l hl
  rw [h10] at hl
  exact List.eq_of_mem_replicate hl

/-- Amended C7: `GridCoordinates` truncates towards zero (the C++ `int`
cast); it agrees with the floor formula exactly on points at or beyond
the box's minimum corner, and performs no clamping. -/
theorem gridCoordinates_trunc_floor {κ : Type} {g : GridRangeQuery κ} (p : Point)
    (hcw : 0 < g.cell_width) (hch : 0 < g.cell_height)
    (hx : g.bbox.minx ≤ p.x) (hy : g.bbox.miny ≤ p.y) :
    g.GridCoordinates p =
      (⌊(p.x - g.bbox.minx) / g.cell_width⌋, ⌊(p.y - g.bbox.miny) / g.cell_height⌋) := by
  unfold GridRangeQuery.GridCoordinates ratTrunc
  rw [if_neg (not_lt.mpr (div_nonneg (by linarith) (le_of_lt hcw))),
    if_neg (not_lt.mpr (div_nonneg (by linarith) (le_of_lt hch)))]

/-! ### Concrete evaluations: counterexamples, failing inputs, witnesses -/

section ConcreteEvaluations

attribute [local semireducible] Rat.mul Rat.inv Rat.add Rat.sub

/-- Counterexample to C1 as stated: in the 3×1 grid `g31` the product
`num_cols · cell_width` is strictly below the box width, because the
constructor pairs `num_rows` with the width and `num_cols` with the
height. -/
theorem num_pairing_cx :
    mkGridRangeQuery ℕ ⟨0, 0, 3, 1⟩ 1 1 = some g31 ∧
    (g31.num_cols : ℚ) * g31.cell_width < g31.bbox.Width := by
  decide

/-- Counterexample to C2 as stated: for `g31` the stored `num_cols`
differs from `⌈width / cell_width⌉` and `num_rows` differs from
`⌈height / cell_height⌉` — the two formulas are swapped in the source. -/
theorem constructor_counts_cx :
    mkGridRangeQuery ℕ ⟨0, 0, 3, 1⟩ 1 1 = some g31 ∧
    g31.num_cols ≠ ⌈g31.bbox.Width / g31.cell_width⌉ ∧
    g31.num_rows ≠ ⌈g31.bbox.Height / g31.cell_height⌉ := by
  decide

/-- Counterexample to C7 as stated: for a point half a cell left of the
box, `GridCoordinates` truncates the negative quotient to `0`, while the
claimed floor formula yields `-1`. -/
theorem gridCoordinates_not_floor_cx :
    mkGridRangeQuery ℕ ⟨0, 0, 10, 10⟩ 1 1 = some g10 ∧
    g10.GridCoordinates ⟨-1 / 2, 1 / 2⟩ = (0, 0) ∧
    ⌊((-1 / 2 : ℚ) - g10.bbox.minx) / g10.cell_width⌋ = -1 := by
  decide

/-- Counterexample to C9 as stated: on the square 10×10 grid, the
out-of-range call `ItemsInCell(10, 0)` (since `num_cols = 10`) returns
normally and yields exactly the sequence of the unrelated valid cell
`(0, 1)`. -/
theorem itemsInCell_aliasing_cx :
    g10.AddLineSegment 5 segQ = some g10x ∧
    g10x.num_cols = 10 ∧
    g10x.ItemsInCell 10 0 = some [5] ∧
    g10x.ItemsInCell 0 1 = some [5] := by
  decide

/-- C4: on the valid non-square grid `g13` (`num_rows = 1`,
`num_cols = 3`, table length 3), the vertical segment `seg13` clips to
itself, passes strictly through the interior of cell `(0, 0)` (e.g. at
the on-segment point `(1/2, 3/4) = lerp(1/8)`), yet `AddLineSegment`
aborts on an out-of-bounds table write and records the key nowhere. -/
theorem addLineSegment_misses_crossed_cell :
    mkGridRangeQuery ℕ ⟨0, 0, 1, 3⟩ 1 1 = some g13 ∧
    g13.InteriorLineSegment seg13 = some seg13 ∧
    lerpP seg13.a seg13.b (1 / 8) = ⟨1 / 2, 3 / 4⟩ ∧
    ((g13.CellBoundingBox 0 0).minx < 1 / 2 ∧ (1 / 2 : ℚ) < (g13.CellBoundingBox 0 0).maxx ∧
     (g13.CellBoundingBox 0 0).miny < 3 / 4 ∧ (3 / 4 : ℚ) < (g13.CellBoundingBox 0 0).maxy) ∧
    g13.AddLineSegment 7 seg13 = none := by
  decide

/-- C10: the walk of `AddLineSegment` on `g13` pushes at cell `(0, 1)`,
whose flat index `0 + 1·num_cols = 3` equals the table length 3 — an
out-of-bounds vector access (undefined behaviour in the C++ source), so
the modelled insertion aborts. -/
theorem addLineSegment_flat_oob :
    mkGridRangeQuery ℕ ⟨0, 0, 1, 3⟩ 1 1 = some g13 ∧
    g13.GridCoordinates seg13.a = (0, 0) ∧
    (0, 1) ∈ (g13.walkAux seg13.a seg13.b g13.walkFuel 0 0 seg13.a).1 ∧
    g13.flatIndex 0 1 = 3 ∧ g13.items.length = 3 ∧
    ¬((1 : ℤ) < g13.num_rows) ∧
    g13.AddLineSegment 9 seg13 = none := by
  decide

/-- Witness for the amended C1 at the concrete grid `g31`. -/
theorem grid_covers_box_swapped_witness :
    g31.bbox.Width ≤ (g31.num_rows : ℚ) * g31.cell_width :=
  (grid_covers_box_swapped
    (by decide : mkGridRangeQuery ℕ ⟨0, 0, 3, 1⟩ 1 1 = some g31)).1.1

/-- Witness for the amended C2 at the concrete grid `g31`. -/
theorem constructor_spec_swapped_witness :
    g31.num_rows = ⌈g31.bbox.Width / g31.cell_width⌉ ∧
    g31.num_cols = ⌈g31.bbox.Height / g31.cell_height⌉ :=
  ⟨(constructor_spec_swapped
      (by decide : mkGridRangeQuery ℕ ⟨0, 0, 3, 1⟩ 1 1 = some g31)).2.2.1,
   (constructor_spec_swapped
      (by decide : mkGridRangeQuery ℕ ⟨0, 0, 3, 1⟩ 1 1 = some g31)).2.2.2.1⟩

/-- Witness for C3 at the concrete grid `g13` and segment `seg13`: the
fuelled walk reaches its own exit. -/
theorem addLineSegment_walk_terminates_witness :
    (g13.walkAux seg13.a seg13.b g13.walkFuel 0 0 seg13.a).2 = true :=
  (addLineSegment_walk_terminates
    (by decide : mkGridRangeQuery ℕ ⟨0, 0, 1, 3⟩ 1 1 = some g13)
    (by decide : g13.InteriorLineSegment seg13 = some seg13)
    (by decide)
    (by decide : g13.GridCoordinates seg13.a = (0, 0))).1

/-- Witness for C5: on the square grid holding key `5` in cell `(0, 1)`,
a rectangle covering that cell reports the key. -/
theorem query_mem_iff_witness : (5 : ℕ) ∈ g10x.Query ⟨0, 0, 2, 2⟩ :=
  ((query_mem_iff (g := g10x) (by decide) (by decide) (by decide)).2
    ⟨0, 0, 2, 2⟩ 5).mpr ⟨(0, 1), by decide, [5], by decide, by decide⟩

/-- Witness for C6: the partial horizontal segment of the specification's
concrete scenarios has a non-empty clip on the 10×10 grid. -/
theorem interiorLineSegment_spec_witness :
    (g10.InteriorLineSegment ⟨⟨-5, 5⟩, ⟨5, 5⟩⟩).isSome = true :=
  ((interiorLineSegment_spec g10 ⟨⟨-5, 5⟩, ⟨5, 5⟩⟩).2 (by decide)).1.mpr (by decide)

/-- Witness for the amended C7: a point inside the box where the
truncation and the floor formula agree. -/
theorem gridCoordinates_trunc_floor_witness :
    g10.GridCoordinates ⟨5 / 2, 7 / 2⟩ =
      (⌊((5 / 2 : ℚ) - g10.bbox.minx) / g10.cell_width⌋,
       ⌊((7 / 2 : ℚ) - g10.bbox.miny) / g10.cell_height⌋) :=
  gridCoordinates_trunc_floor (g := g10) ⟨5 / 2, 7 / 2⟩
    (by decide) (by decide) (by decide) (by decide)

/-- Witness for C8: re-clipping the already clipped partial segment
returns it unchanged. -/
theorem interiorLineSegment_idempotent_witness :
    g10.InteriorLineSegment ⟨⟨0, 5⟩, ⟨5, 5⟩⟩ = some ⟨⟨0, 5⟩, ⟨5, 5⟩⟩ :=
  interiorLineSegment_idempotent (by decide) (by decide)
    (by decide : g10.InteriorLineSegment ⟨⟨-5, 5⟩, ⟨5, 5⟩⟩ = some ⟨⟨0, 5⟩, ⟨5, 5⟩⟩)

/-- Witness for the amended C9: the out-of-range call `(10, 0)` aliases
the valid cell `(0, 1)` on the grid `g10x`. -/
theorem itemsInCell_flat_aliasing_witness :
    g10x.ItemsInCell 10 0 = g10x.ItemsInCell 0 1 := by
  have h := (itemsInCell_flat_aliasing (g := g10x) (by decide) (by decide) (by decide)
    10 0 (by decide) (by decide)).2.1
  have e1 : g10x.flatIndex 10 0 % g10x.num_cols = 0 := by decide
  have e2 : g10x.flatIndex 10 0 / g10x.num_cols = 1 := by decide
  rw [e1, e2] at h
  exact h

end ConcreteEvaluations
